import Mathlib

/-!
Verification development for the `asgi_server_timing` middleware
(`asgi_server_timing/middleware.py`).

Python strings and byte strings are embedded as `List Char` (all data that
matters here is character-level); Python `float` durations are embedded as `ℚ`
(every duration appearing in the properties below is exactly representable);
Python exceptions are embedded as `Option`/`none` (an exception propagates and
the surrounding computation produces no result).
-/

set_option autoImplicit false

/-- Character list of a string literal, used to write embedded Python strings. -/
def chars (s : String) : List Char := s.data

-- -----------------------------------------------------------------------------
-- Python string primitives used by the middleware
-- -----------------------------------------------------------------------------

/-- Embeds Python `s.split(sep)` for a one-character separator `c`:
`"".split(c) = [""]`, separators at the ends produce empty segments. -/
def splitOnChar (c : Char) : List Char → List (List Char)
  | [] => [[]]
  | x :: xs =>
    match splitOnChar c xs with
    | [] => [[x]]
    | r :: rs => if x = c then [] :: r :: rs else (x :: r) :: rs

/-- Embeds Python `sep.join(xs)` for a one-character separator. -/
def joinWith (c : Char) : List (List Char) → List Char
  | [] => []
  | [x] => x
  | x :: y :: t => x ++ c :: joinWith c (y :: t)

/-- Decimal digits of a natural number (fuel-indexed helper). -/
def natCharsAux : Nat → Nat → List Char
  | 0, _ => []
  | f + 1, n => if n = 0 then [] else natCharsAux f (n / 10) ++ [Nat.digitChar (n % 10)]

/-- Embeds Python `str`/format of a natural number (decimal, no sign). -/
def natChars (n : Nat) : List Char := if n = 0 then ['0'] else natCharsAux n n

/-- Embeds Python `str`/format of an integer (decimal). -/
def intChars (i : Int) : List Char :=
  if i < 0 then chars "-" ++ natChars i.natAbs else natChars i.natAbs

/-- Kernel-computable addition on `ℚ` (the library `+` is `irreducible`);
`ratAdd_eq` below proves it equal to `+`. -/
def ratAdd (a b : ℚ) : ℚ :=
  mkRat (a.num * b.den + b.num * a.den) (a.den * b.den)

/-- Kernel-computable sum of a list of rationals; equals `List.sum`. -/
def ratSum (l : List ℚ) : ℚ := l.foldr ratAdd 0

/-- Kernel-computable multiplication of a rational by a natural number;
equals `q * n`. -/
def ratMulNat (q : ℚ) (n : Nat) : ℚ := mkRat (q.num * n) q.den

theorem ratAdd_eq (a b : ℚ) : ratAdd a b = a + b := by
  have ha0 : (a.den : ℚ) ≠ 0 := Nat.cast_ne_zero.mpr a.den_nz
  have hb0 : (b.den : ℚ) ≠ 0 := Nat.cast_ne_zero.mpr b.den_nz
  rw [ratAdd, Rat.mkRat_eq_div]
  conv_rhs => rw [← Rat.num_div_den a, ← Rat.num_div_den b]
  push_cast
  field_simp

theorem ratSum_eq (l : List ℚ) : ratSum l = l.sum := by
  induction l with
  | nil => rfl
  | cons x t ih => rw [ratSum, List.foldr_cons, ← ratSum, ih, ratAdd_eq, List.sum_cons]

theorem ratMulNat_eq (q : ℚ) (n : Nat) : ratMulNat q n = q * n := by
  have h0 : (q.den : ℚ) ≠ 0 := Nat.cast_ne_zero.mpr q.den_nz
  rw [ratMulNat, Rat.mkRat_eq_div]
  conv_rhs => rw [← Rat.num_div_den q]
  push_cast
  field_simp

/-- Embeds Python `f"{x:.3f}"` on a float of exact value `q`: the value is
rounded to 3 decimal places and printed with exactly three fractional digits.
Faithful for the nonnegative, exactly-representable
durations that occur in this program (ties between two 3-decimal neighbours
cannot occur for them). `fmt3Round` is the rounded integer
`⌊q * 1000 + 1/2⌋`, computed directly on the numerator and denominator so
that it kernel-evaluates; `fmt3` renders it with three fractional digits. -/
def fmt3Round (q : ℚ) : Nat :=
  (Int.ediv (2000 * q.num + (q.den : Int)) (2 * (q.den : Int))).toNat

/-- Renders the .3f rounding with exactly three fractional digits; see
`fmt3Round`. -/
def fmt3 (q : ℚ) : List Char :=
  natChars (fmt3Round q / 1000) ++
    '.' :: [Nat.digitChar (fmt3Round q % 1000 / 100),
      Nat.digitChar (fmt3Round q % 1000 / 10 % 10),
      Nat.digitChar (fmt3Round q % 1000 % 10)]

/-- Left-pads a digit list with zeros to width `k`. -/
def padZeros (k : Nat) (l : List Char) : List Char :=
  List.replicate (k - l.length) '0' ++ l

/-- Embeds Python `str(x)` on a float of exact value `q`. Faithful for floats
whose exact value has a short decimal expansion equal to the shortest repr
(in particular for all integral values, rendered as `"5.0"`): Python prints
the shortest decimal string that round-trips. Values outside that range do
not occur in this development. -/
def pyFloatRepr (q : ℚ) : List Char :=
  if q.den = 1 then intChars q.num ++ chars ".0"
  else
    match (List.range 17).find? (fun k => 10 ^ (k + 1) % q.den = 0) with
    | some k =>
      let p : Nat := 10 ^ (k + 1)
      let n : Nat := q.num.natAbs * p / q.den
      (if q.num < 0 then chars "-" else []) ++ natChars (n / p) ++
        '.' :: padZeros (k + 1) (natChars (n % p))
    | none => chars "0.0"

/-- Embeds Python `str(b)` applied to a `bytes` object `b`: the result is the
repr `b'...'`. Faithful when the content is printable ASCII containing neither
a backslash nor a single quote (no escaping happens then). -/
def pyStrOfBytes (b : List Char) : List Char :=
  'b' :: '\x27' :: b ++ ['\x27']

/-- Embeds Python `s.isascii()`. -/
def pyIsAscii (s : List Char) : Bool := s.all (fun c => c.toNat ≤ 127)

/-- Embeds Python `s.isprintable()` restricted to ASCII strings (the only
strings it is applied to in the source, since `isascii` is checked first):
printable ASCII is exactly the range U+0020 .. U+007E. -/
def pyIsPrintableAscii (s : List Char) : Bool :=
  s.all (fun c => 32 ≤ c.toNat && c.toNat ≤ 126)

/-- Embeds Python `s.encode("ascii")`: the code-point list if every character
is below 128, otherwise a `UnicodeEncodeError` (modelled as `none`). -/
def encodeAscii (s : List Char) : Option (List Nat) :=
  if pyIsAscii s then some (s.map Char.toNat) else none

-- -----------------------------------------------------------------------------
-- Metric identity and metric value
-- -----------------------------------------------------------------------------

/-- The delimiter characters matched by `_re_pattern_invalid_characters`,
the regex `[ "(),/:;<=>?@\[\\\]{}]` of the source. -/
def invalidNameChars : List Char :=
  [' ', '"', '(', ')', ',', '/', ':', ';', '<', '=', '>', '?', '@', '[', '\\',
    ']', '\x7b', '\x7d']

/-- Embeds the value checks of `_ServerTimingMetricName.__post_init__` on the
`name` field (`isascii`, then `isprintable`, then the delimiter regex search);
`true` means construction succeeds. There is no emptiness check in the source,
and Python's `"".isascii()` and `"".isprintable()` are both `True`. -/
def metricNameCheck (name : List Char) : Bool :=
  pyIsAscii name && pyIsPrintableAscii name && !(name.any (· ∈ invalidNameChars))

/-- The validity predicate the specification states for metric names:
non-empty, 7-bit ASCII, printable, and free of the disallowed delimiters. -/
def specNameValid (name : List Char) : Bool :=
  !name.isEmpty && pyIsAscii name && pyIsPrintableAscii name &&
    !(name.any (· ∈ invalidNameChars))

/-- Embeds the dataclass `ServerTimingMetric` (which inherits the `name` and
`description` fields of `_ServerTimingMetricName` and adds `duration`). -/
structure ServerTimingMetric where
  name : List Char
  description : Option (List Char)
  duration : Option ℚ
deriving DecidableEq

/-- Embeds `ServerTimingMetric.__post_init__`. The override replaces the
parent's `__post_init__` (Python never calls the parent's version), and its
only checks are `isinstance` type checks on `duration`, which are vacuous in a
typed embedding: every construction succeeds, whatever the name. -/
def serverTimingMetricPostInitOk (_ : ServerTimingMetric) : Bool := true

/-- Embeds the dataclass-generated `__eq__` of `ServerTimingMetric`: frozen
dataclasses compare the tuple of all fields, inherited ones included. -/
def ServerTimingMetric.pyEq (x y : ServerTimingMetric) : Bool :=
  decide (x.name = y.name) && decide (x.description = y.description) &&
    decide (x.duration = y.duration)

/-- A value stored in a `ServerTimingHeaderField` parameter dict: either a raw
string (as produced by the parser) or a float (as stored by
`to_optional_value_dict`). -/
inductive PVal where
  | str : List Char → PVal
  | num : ℚ → PVal
deriving DecidableEq

/-- Embeds the Python f-string interpolation `f"{v}"` of a parameter value:
a string interpolates as itself, a float as its `str()`. -/
def PVal.render : PVal → List Char
  | .str s => s
  | .num q => pyFloatRepr q

/-- Embeds `ServerTimingMetric.to_optional_value_dict`: `dur` first when a
duration is present (stored as the raw float), then `desc` when a description
is present (stored raw, without quotes). -/
def ServerTimingMetric.to_optional_value_dict (m : ServerTimingMetric) :
    List (List Char × PVal) :=
  (match m.duration with
    | some d => [(chars "dur", PVal.num d)]
    | none => []) ++
  (match m.description with
    | some s => [(chars "desc", PVal.str s)]
    | none => [])

/-- Embeds `ServerTimingMetric.to_header_string`:
`<name>[;dur=<%.3f duration>][;desc="<description>"]`. -/
def ServerTimingMetric.to_header_string (m : ServerTimingMetric) : List Char :=
  let withDur :=
    match m.duration with
    | some d => m.name ++ chars ";dur=" ++ fmt3 d
    | none => m.name
  match m.description with
  | some s => withDur ++ chars ";desc=\"" ++ s ++ chars "\""
  | none => withDur

/-- Embeds `ServerTimingMetric.to_header_bytes`: ASCII-encode the header
string; a non-ASCII character raises (`none`). -/
def ServerTimingMetric.to_header_bytes (m : ServerTimingMetric) :
    Option (List Nat) :=
  encodeAscii m.to_header_string

-- -----------------------------------------------------------------------------
-- Header field model (`ServerTimingHeaderField`)
-- -----------------------------------------------------------------------------

/-- Embeds Python `d.get(k)` on an insertion-ordered dict represented as an
association list with unique keys. -/
def dictGet {K V : Type} [DecidableEq K] : List (K × V) → K → Option V
  | [], _ => none
  | kv :: rest, k => if k = kv.1 then some kv.2 else dictGet rest k

/-- Embeds Python `d[k] = v` on an insertion-ordered dict: an existing key
keeps its position and gets the new value, a new key is appended. -/
def dictSet {K V : Type} [DecidableEq K] : List (K × V) → K → V → List (K × V)
  | [], k, v => [(k, v)]
  | kv :: rest, k, v =>
    if k = kv.1 then (k, v) :: rest else kv :: dictSet rest k v

/-- Embeds `ServerTimingHeaderField`, a `defaultdict(dict)` mapping metric
names to parameter dicts, as an insertion-ordered association list. -/
abbrev HeaderFieldMap : Type := List (List Char × List (List Char × PVal))

instance decEqHeaderFieldMap : DecidableEq HeaderFieldMap := inferInstance

instance : DecidableEq (Option HeaderFieldMap) := fun a b =>
  match a, b with
  | none, none => isTrue rfl
  | some x, some y =>
    match decEqHeaderFieldMap x y with
    | isTrue h => isTrue (by rw [h])
    | isFalse h => isFalse (fun he => h (Option.some.inj he))
  | none, some _ => isFalse (fun he => Option.noConfusion he)
  | some _, none => isFalse (fun he => Option.noConfusion he)

/-- Embeds `server_timing_header_field[name][key] = value` on the
`defaultdict(dict)`: accessing an absent `name` creates an empty dict for it
(appended at the end), then the parameter dict is updated in place. -/
def mapInsertParam (m : HeaderFieldMap) (nm k : List Char) (v : PVal) :
    HeaderFieldMap :=
  match dictGet m nm with
  | some ps => dictSet m nm (dictSet ps k v)
  | none => m ++ [(nm, [(k, v)])]

/-- Embeds the inner `format_metric` of
`ServerTimingHeaderField.to_header_field_string`: the name, then for each
parameter in dict order, `;dur=<v>` or `;desc=<v>` (interpolated raw, with no
reformatting); parameters with any other key are dropped. -/
def formatMetric (nm : List Char) (ps : List (List Char × PVal)) : List Char :=
  ps.foldl
    (fun acc kv =>
      if kv.1 = chars "dur" then acc ++ chars ";dur=" ++ kv.2.render
      else if kv.1 = chars "desc" then acc ++ chars ";desc=" ++ kv.2.render
      else acc)
    nm

/-- Embeds `ServerTimingHeaderField.to_header_field_string`: the formatted
metrics joined with `,` in map iteration order. -/
def to_header_field_string (m : HeaderFieldMap) : List Char :=
  joinWith ',' (m.map (fun e => formatMetric e.1 e.2))

/-- Embeds `ServerTimingHeaderField.to_header_field_bytes`. -/
def to_header_field_bytes (m : HeaderFieldMap) : Option (List Nat) :=
  encodeAscii (to_header_field_string m)

/-- Embeds the inner loop of `server_timing_metrics_to_dict` over the `;`-split
parameter segments of one metric: `key, value = parameter.split('=')` raises a
`ValueError` (`none`) unless the split yields exactly two parts. -/
def parseParams (nm : List Char) (m : HeaderFieldMap) :
    List (List Char) → Option HeaderFieldMap
  | [] => some m
  | p :: rest =>
    match splitOnChar '=' p with
    | [k, v] => parseParams nm (mapInsertParam m nm k (PVal.str v)) rest
    | _ => none

/-- Embeds the outer loop of `server_timing_metrics_to_dict` over the
`,`-split metrics: split each on `;`, the head is the name, the tail are the
parameter segments. -/
def parseMetrics (m : HeaderFieldMap) :
    List (List Char) → Option HeaderFieldMap
  | [] => some m
  | seg :: rest =>
    match splitOnChar ';' seg with
    | [] => none
    | nm :: ps =>
      match parseParams nm m ps with
      | some m2 => parseMetrics m2 rest
      | none => none

/-- Embeds `server_timing_metrics_to_dict`: parse a header-field string into a
`ServerTimingHeaderField`; a malformed parameter segment raises (`none`). -/
def server_timing_metrics_to_dict (headerField : List Char) :
    Option HeaderFieldMap :=
  parseMetrics [] (splitOnChar ',' headerField)

-- -----------------------------------------------------------------------------
-- Middleware header mutation (`wrapped_send`, lines 356-405)
-- -----------------------------------------------------------------------------

/-- The `overwrite_behavior` configuration after constructor validation:
a falsy value, `"replace"`, or `"retain"`. -/
inductive OverwriteBehavior where
  | falsy | replace | retain
deriving DecidableEq

/-- Embeds the policy dispatch of `wrapped_send` on an existing parsed header
(`if not self.overwrite_behavior: pass / elif 'replace' / elif 'retain'`).
`retain` skips an incoming metric when `sthf.get(name)` is truthy, i.e. when an
entry exists and its parameter dict is non-empty. -/
def applyOverwrite (ow : OverwriteBehavior) (sthf : HeaderFieldMap)
    (performances : List ServerTimingMetric) : HeaderFieldMap :=
  match ow with
  | .falsy => sthf
  | .replace =>
    performances.foldl
      (fun acc p => dictSet acc p.name p.to_optional_value_dict) sthf
  | .retain =>
    performances.foldl
      (fun acc p =>
        match dictGet acc p.name with
        | some ps => if ps.isEmpty then dictSet acc p.name p.to_optional_value_dict else acc
        | none => dictSet acc p.name p.to_optional_value_dict)
      sthf

/-- Embeds the fresh-header branch of `wrapped_send`:
`','.join(performance.to_header_string() for performance in performances)`. -/
def freshHeaderValue (performances : List ServerTimingMetric) : List Char :=
  joinWith ',' (performances.map ServerTimingMetric.to_header_string)

/-- Embeds the header mutation of `wrapped_send` on a `http.response.start`
message: build `dict(response['headers'])`, look up `b'server-timing'`; if a
truthy (non-empty) value exists, parse `str(field)`, apply the overwrite
policy, reserialize into the dict and rebuild the header list from it;
otherwise append a fresh `server-timing` header to the original list. A raised
`ValueError` during parsing propagates (`none`): `send` is never reached. -/
def wrappedSendHeaders (ow : OverwriteBehavior)
    (performances : List ServerTimingMetric)
    (headers : List (List Char × List Char)) :
    Option (List (List Char × List Char)) :=
  let hd := headers.foldl (fun d kv => dictSet d kv.1 kv.2) []
  match dictGet hd (chars "server-timing") with
  | some field =>
    if field.isEmpty then
      some (headers ++ [(chars "server-timing", freshHeaderValue performances)])
    else
      match server_timing_metrics_to_dict (pyStrOfBytes field) with
      | none => none
      | some sthf =>
        some (dictSet hd (chars "server-timing")
          (to_header_field_string (applyOverwrite ow sthf performances)))
  | none =>
    some (headers ++ [(chars "server-timing", freshHeaderValue performances)])

-- -----------------------------------------------------------------------------
-- Per-request metric aggregation (`wrapped_send`, lines 356-373)
-- -----------------------------------------------------------------------------

/-- Embeds the `performances` generator of `wrapped_send`: for each configured
metric key paired with the `ttot` values of its tag-and-group-filtered profiler
stats, the metric is emitted only when the filtered stats are non-empty, with
duration `sum(stat.ttot for stat in stats) * 1000` (written with the
kernel-computable `ratMulNat`/`ratSum`, equal to `ks.2.sum * 1000` by
`ratMulNat_eq` and `ratSum_eq`). -/
def performancesOf (tracked : List (ServerTimingMetric × List ℚ)) :
    List ServerTimingMetric :=
  tracked.filterMap
    (fun ks =>
      if ks.2.isEmpty then none
      else some ⟨ks.1.name, ks.1.description, some (ratMulNat (ratSum ks.2) 1000)⟩)

-- -----------------------------------------------------------------------------
-- Concurrency model: per-task context variable and the global profiler store
-- -----------------------------------------------------------------------------

/-- A profiler sample: the tag returned by the tag-resolution callback
(`_get_context_tag`) at the time of the call, the callable's identity, and the
recorded `ttot` in seconds. -/
abbrev Sample : Type := Int × Nat × ℚ

/-- One step of a request task's script. `setTag t` embeds
`_yappi_ctx_tag.set(ctx_tag)` at the top of `ServerTimingMiddleware.__call__`;
`call c d` embeds downstream code executing tracked callable `c` for `d`
seconds, which makes the profiler record one sample labelled with the value
the tag-resolution callback reads at that moment. -/
inductive TaskAction where
  | setTag : Int → TaskAction
  | call : Nat → ℚ → TaskAction
deriving DecidableEq

/-- One in-flight request's logical task. `ctxTag` is the value of the
`_yappi_ctx_tag` `ContextVar` in this task's own context: each ASGI request is
served in its own asyncio task with its own context, so a `set` by one task is
invisible to every other (this is the context-propagation semantics the
middleware relies on). The default value of the `ContextVar` is `-1`. -/
structure ReqTask where
  ctxTag : Int
  script : List TaskAction
deriving DecidableEq

/-- Advances a task by one action (no-op when its script is finished). -/
def stepTask (t : ReqTask) : ReqTask :=
  match t.script with
  | [] => t
  | .setTag tg :: rest => ⟨tg, rest⟩
  | .call _ _ :: rest => ⟨t.ctxTag, rest⟩

/-- The sample the task's next action appends to the global profiler store:
a `call` records one sample tagged with the executing task's own context
value (the profiler invokes the tag callback in the caller's context). -/
def emitTask (t : ReqTask) : List Sample :=
  match t.script with
  | .call c d :: _ => [(t.ctxTag, c, d)]
  | _ => []

/-- The samples appended to the global profiler store by a cooperative
interleaving of two request tasks: `true` schedules the first task for one
step, `false` the second. -/
def emitted : List Bool → ReqTask → ReqTask → List Sample
  | [], _, _ => []
  | b :: bs, tA, tB =>
    if b then emitTask tA ++ emitted bs (stepTask tA) tB
    else emitTask tB ++ emitted bs tA (stepTask tB)

/-- The samples a task appends when scheduled alone for `n` steps. -/
def soloEmit : Nat → ReqTask → List Sample
  | 0, _ => []
  | n + 1, t => emitTask t ++ soloEmit n (stepTask t)

/-- Runs an interleaving of two tasks against the shared profiler store
(yappi's process-global sample log): each scheduled step appends that task's
emitted samples to the single store. -/
def runSched : List Bool → List Sample × ReqTask × ReqTask →
    List Sample × ReqTask × ReqTask
  | [], s => s
  | b :: bs, (p, tA, tB) =>
    if b then runSched bs (p ++ emitTask tA, stepTask tA, tB)
    else runSched bs (p ++ emitTask tB, tA, stepTask tB)

/-- Embeds the profiler query of `wrapped_send`
(`yappi.get_func_stats(filter={'tag': ctx_tag}, filter_callback=...)`): the
`ttot` values of the samples whose tag equals the request's tag and whose
callable satisfies the group membership predicate, in store order. -/
def statsFor (tag : Int) (grp : Nat → Bool) (samples : List Sample) : List ℚ :=
  samples.filterMap
    (fun s => if s.1 = tag && grp s.2.1 then some s.2.2 else none)

/-- The `server-timing` header value a request computes at response start when
no pre-existing header is present: query the profiler per configured metric
with the request's own tag, build the performances, and serialize them. -/
def requestHeaderValue (cfg : List (ServerTimingMetric × (Nat → Bool)))
    (tag : Int) (samples : List Sample) : List Char :=
  freshHeaderValue
    (performancesOf (cfg.map (fun kg => (kg.1, statsFor tag kg.2 samples))))

-- -----------------------------------------------------------------------------
-- Helper lemmas
-- -----------------------------------------------------------------------------

theorem dictGet_dictSet_ne {K V : Type} [DecidableEq K] (m : List (K × V))
    (k k' : K) (v : V) (h : k' ≠ k) :
    dictGet (dictSet m k v) k' = dictGet m k' := by
  induction m with
  | nil => simp [dictSet, dictGet, h]
  | cons kv rest ih =>
    by_cases hk : k = kv.1
    · subst hk
      simp [dictSet, dictGet, h]
    · simp only [dictSet, if_neg hk]
      by_cases hk2 : k' = kv.1
      · simp [dictGet, hk2]
      · simp [dictGet, hk2, ih]

theorem dictGet_append_of_none {K V : Type} [DecidableEq K]
    (l1 l2 : List (K × V)) (k : K) (h : dictGet l1 k = none) :
    dictGet (l1 ++ l2) k = dictGet l2 k := by
  induction l1 with
  | nil => simp
  | cons kv rest ih =>
    by_cases hk : k = kv.1
    · simp [dictGet, hk] at h
    · simp only [dictGet, if_neg hk] at h
      simpa [dictGet, hk] using ih h

theorem statsFor_append (tag : Int) (grp : Nat → Bool) (a b : List Sample) :
    statsFor tag grp (a ++ b) = statsFor tag grp a ++ statsFor tag grp b := by
  simp [statsFor]

theorem natCharsAux_digits (f : Nat) : ∀ (n : Nat), ∀ c ∈ natCharsAux f n,
    ∃ k, k < 10 ∧ c = Nat.digitChar k := by
  induction f with
  | zero => simp [natCharsAux]
  | succ f ih =>
    intro n c hc
    by_cases h0 : n = 0
    · simp [natCharsAux, h0] at hc
    · simp only [natCharsAux, if_neg h0, List.mem_append, List.mem_singleton] at hc
      rcases hc with h | h
      · exact ih _ c h
      · exact ⟨n % 10, Nat.mod_lt _ (by omega), h⟩

theorem digitChar_ne_dot : ∀ k < 10, Nat.digitChar k ≠ '.' := by decide

theorem natChars_no_dot (n : Nat) : '.' ∉ natChars n := by
  by_cases h0 : n = 0
  · simp [natChars, h0]
  · simp only [natChars, if_neg h0]
    intro hmem
    obtain ⟨k, hk, hc⟩ := natCharsAux_digits n n '.' hmem
    exact digitChar_ne_dot k hk hc.symm

theorem splitOnChar_ne_nil (c : Char) (s : List Char) : splitOnChar c s ≠ [] := by
  induction s with
  | nil => simp [splitOnChar]
  | cons x xs ih =>
    simp only [splitOnChar]
    cases h : splitOnChar c xs with
    | nil => simp
    | cons r rs => by_cases hx : x = c <;> simp [hx]

theorem splitOnChar_no_sep (c : Char) (s : List Char) (h : c ∉ s) :
    splitOnChar c s = [s] := by
  induction s with
  | nil => rfl
  | cons x xs ih =>
    have hx : x ≠ c := by
      intro hxc
      exact h (hxc ▸ List.mem_cons_self x xs)
    have hxs : c ∉ xs := fun hm => h (List.mem_cons_of_mem _ hm)
    simp [splitOnChar, ih hxs, hx]

theorem splitOnChar_append_cons (c : Char) (a r : List Char) (h : c ∉ a) :
    splitOnChar c (a ++ c :: r) = a :: splitOnChar c r := by
  induction a with
  | nil =>
    simp only [List.nil_append, splitOnChar]
    cases hr : splitOnChar c r with
    | nil => exact absurd hr (splitOnChar_ne_nil c r)
    | cons p ps => simp
  | cons x a ih =>
    have hx : x ≠ c := by
      intro hxc
      exact h (hxc ▸ List.mem_cons_self x a)
    have ha : c ∉ a := fun hm => h (List.mem_cons_of_mem _ hm)
    simp only [List.cons_append, splitOnChar, List.append_eq]
    rw [ih ha]
    simp [hx]

theorem splitOnChar_joinWith (c : Char) (xs : List (List Char)) (hne : xs ≠ [])
    (h : ∀ x ∈ xs, c ∉ x) : splitOnChar c (joinWith c xs) = xs := by
  induction xs with
  | nil => exact absurd rfl hne
  | cons x t ih =>
    cases t with
    | nil => exact splitOnChar_no_sep c x (h x (List.mem_cons_self x []))
    | cons y t2 =>
      have hstep : joinWith c (x :: y :: t2) = x ++ c :: joinWith c (y :: t2) := rfl
      rw [hstep, splitOnChar_append_cons c x _ (h x (List.mem_cons_self x _)),
        ih (by simp) (fun z hz => h z (List.mem_cons_of_mem _ hz))]

/-- Helper for the retain policy: an existing entry whose parameter dict is
non-empty (truthy) is never modified by the retain merge loop. -/
theorem retain_preserves_nonempty (inc : List ServerTimingMetric) :
    ∀ (m : HeaderFieldMap) (nm : List Char) (ps : List (List Char × PVal)),
    dictGet m nm = some ps → ps ≠ [] →
    dictGet (applyOverwrite .retain m inc) nm = some ps := by
  induction inc with
  | nil =>
    intro m nm ps h _
    simpa [applyOverwrite] using h
  | cons p rest ih =>
    intro m nm ps h hne
    have hemp : ps.isEmpty = false := by
      cases ps with
      | nil => exact absurd rfl hne
      | cons a b => rfl
    have hunf : applyOverwrite .retain m (p :: rest)
        = applyOverwrite .retain
            (match dictGet m p.name with
              | some ps2 =>
                if ps2.isEmpty then dictSet m p.name p.to_optional_value_dict
                else m
              | none => dictSet m p.name p.to_optional_value_dict)
            rest := by
      simp [applyOverwrite]
    rw [hunf]
    apply ih _ nm ps _ hne
    by_cases hnm : p.name = nm
    · rw [hnm, h]
      simp [hemp, h]
    · cases hg : dictGet m p.name with
      | none =>
        simp only [hg]
        rw [dictGet_dictSet_ne m p.name nm _ (Ne.symm hnm)]
        exact h
      | some ps2 =>
        simp only [hg]
        by_cases he2 : ps2.isEmpty
        · simp only [if_pos he2]
          rw [dictGet_dictSet_ne m p.name nm _ (Ne.symm hnm)]
          exact h
        · simp only [if_neg he2]
          exact h

-- -----------------------------------------------------------------------------
-- Claims
-- -----------------------------------------------------------------------------

/-- C2. The claim says construction of a `ServerTimingMetric` fails exactly for
empty, non-ASCII, non-printable, or delimiter-containing names. The code
disagrees twice: the parent's validator (`metricNameCheck`) accepts the empty
name, and `ServerTimingMetric.__post_init__` overrides the parent's validator
without chaining to it, so a `ServerTimingMetric` is constructed successfully
even for a name containing a disallowed character (here a space). -/
theorem c2_name_validation_gap :
    metricNameCheck (chars "") = true
    ∧ specNameValid (chars "") = false
    ∧ serverTimingMetricPostInitOk ⟨chars " ", none, none⟩ = true
    ∧ specNameValid (chars " ") = false := by decide

/-- C3. The claim says the per-request timing path never raises on a malformed
pre-existing `server-timing` header. The code disagrees: a parameter segment
with no `=` (or more than one `=`) makes `parameter.split('=')` unpacking
raise a `ValueError` inside `wrapped_send`, so `send` is never called and the
response is broken (modelled by `none`). -/
theorem c3_malformed_header_raises :
    server_timing_metrics_to_dict (chars "a;x") = none
    ∧ server_timing_metrics_to_dict (chars "a;k=1=2") = none
    ∧ wrappedSendHeaders .falsy [] [(chars "server-timing", chars "a;x")]
      = none := by decide

/-- C4. The claim says that with a falsy overwrite policy and an existing
`server-timing` header the response headers pass through byte-for-byte
unchanged. The code disagrees: the reserialization of the parsed map is
written back unconditionally, and the parse itself ran on `str(field)` — the
`b'...'` repr of the bytes — so the resulting header value differs from the
original bytes. -/
theorem c4_falsy_still_rewrites :
    wrappedSendHeaders .falsy [⟨chars "a", none, some 5⟩]
        [(chars "server-timing", chars "a;dur=1.0")]
      = some [(chars "server-timing", pyStrOfBytes (chars "a;dur=1.0"))]
    ∧ pyStrOfBytes (chars "a;dur=1.0") ≠ chars "a;dur=1.0" := by decide

/-- C5 counterexample. The claim says a retain merge inserts an incoming
metric only if no existing entry for its name is present. Here the existing
map has an entry for `"a"` (with an empty parameter set, which is falsy), yet
the incoming metric overwrites it. -/
theorem c5_counterexample :
    dictGet [(chars "a", ([] : List (List Char × PVal)))] (chars "a") = some []
    ∧ applyOverwrite .retain [(chars "a", [])] [⟨chars "a", none, some 5⟩]
      = [(chars "a", [(chars "dur", PVal.num 5)])]
    ∧ dictGet (applyOverwrite .retain [(chars "a", [])]
        [⟨chars "a", none, some 5⟩]) (chars "a") ≠ some [] := by decide

/-- C5 amended. Under the retain policy an incoming metric is inserted only if
the existing map has no entry for its name or that entry's parameter set is
empty (falsy); every existing entry with at least one parameter is left
untouched with all of its parameters. In particular an existing `a;desc="x"`
survives a retain merge against an incoming `a` with `dur=5.0` unchanged, the
duration not merged in. -/
theorem c5_retain_amended (m : HeaderFieldMap) (inc : List ServerTimingMetric) :
    (∀ nm ps, dictGet m nm = some ps → ps ≠ [] →
        dictGet (applyOverwrite .retain m inc) nm = some ps)
    ∧ applyOverwrite .retain
          [(chars "a", [(chars "desc", PVal.str (chars "\"x\""))])]
          [⟨chars "a", none, some 5⟩]
      = [(chars "a", [(chars "desc", PVal.str (chars "\"x\""))])] := by
  refine ⟨fun nm ps h hne => retain_preserves_nonempty inc m nm ps h hne, ?_⟩
  decide

/-- C5 witness: the amended theorem applied at the concrete example map. -/
theorem c5_retain_amended_witness :
    dictGet (applyOverwrite .retain
        [(chars "a", [(chars "desc", PVal.str (chars "\"x\""))])]
        [⟨chars "a", none, some 5⟩]) (chars "a")
      = some [(chars "desc", PVal.str (chars "\"x\""))] :=
  (c5_retain_amended
      [(chars "a", [(chars "desc", PVal.str (chars "\"x\""))])]
      [⟨chars "a", none, some 5⟩]).1
    (chars "a") [(chars "desc", PVal.str (chars "\"x\""))] (by decide) (by decide)

/-- C8 counterexample. The claim says two metric identities are equal iff
their names are equal. The dataclass-generated `__eq__` compares all fields,
so two metrics with the same name and different descriptions are unequal. -/
theorem c8_counterexample :
    (⟨chars "a", some (chars "x"), none⟩ : ServerTimingMetric).name
      = (⟨chars "a", some (chars "y"), none⟩ : ServerTimingMetric).name
    ∧ ServerTimingMetric.pyEq ⟨chars "a", some (chars "x"), none⟩
        ⟨chars "a", some (chars "y"), none⟩ = false := by decide

/-- C8 amended. Two `ServerTimingMetric` values compare equal under the
dataclass `__eq__` iff all fields (name, description and duration) are equal;
the description does participate in equality. During header merging the code
matches on the `name` string directly, not on object equality. -/
theorem c8_eq_compares_all_fields (x y : ServerTimingMetric) :
    x.pyEq y = true
      ↔ x.name = y.name ∧ x.description = y.description
        ∧ x.duration = y.duration := by
  simp [ServerTimingMetric.pyEq, and_assoc]

/-- C6 counterexample. The claim says every serialization of metric values,
including the reserialization of a merged `HeaderFieldMap`, renders durations
with exactly 3 fractional digits. The reserializer
`to_header_field_string` interpolates the stored float with `f"{v}"`
(Python `str`), so a merged duration of `5.0` is rendered `5.0`, not
`5.000`. -/
theorem c6_counterexample :
    to_header_field_string (applyOverwrite .replace [] [⟨chars "a", none, some 5⟩])
      = chars "a;dur=5.0"
    ∧ chars "a;dur=5.0" ≠ chars "a;dur=5.000" := by decide

/-- C6 amended. The fresh-header path does render every duration with exactly
three fractional digits: with no pre-existing header and metrics `a` (10.0 ms)
and `b` (20.0 ms) the emitted header value is exactly
`a;dur=10.000,b;dur=20.000` in configuration order, and for every duration the
`%.3f` rendering consists of a dot-free integer part followed by `.` and
exactly three digit characters. Only the reserialization of a merged map
(see the counterexample) renders raw stored values instead. -/
theorem c6_fresh_three_digits :
    (wrappedSendHeaders .falsy
        [⟨chars "a", none, some 10⟩, ⟨chars "b", none, some 20⟩] []
      = some [(chars "server-timing", chars "a;dur=10.000,b;dur=20.000")])
    ∧ ∀ q : ℚ, ∃ ip f1 f2 f3, fmt3 q = ip ++ '.' :: [f1, f2, f3]
        ∧ '.' ∉ ip ∧ f1 ≠ '.' ∧ f2 ≠ '.' ∧ f3 ≠ '.' := by
  constructor
  · decide
  · intro q
    refine ⟨natChars (fmt3Round q / 1000), Nat.digitChar (fmt3Round q % 1000 / 100),
      Nat.digitChar (fmt3Round q % 1000 / 10 % 10),
      Nat.digitChar (fmt3Round q % 1000 % 10),
      rfl, natChars_no_dot _, ?_, ?_, ?_⟩
    · exact digitChar_ne_dot _ (by omega)
    · exact digitChar_ne_dot _ (by omega)
    · exact digitChar_ne_dot _ (by omega)

/-- C10. A `ServerTimingMetric` serializes to header bytes successfully
exactly when its serialized header string is pure ASCII; in particular a
non-ASCII description (or a non-ASCII name, which the bypassed validation
admits) makes `to_header_bytes` raise a `UnicodeEncodeError` (`none`). -/
theorem c10_ascii_encoding (m : ServerTimingMetric) :
    (m.to_header_bytes = none ↔ pyIsAscii m.to_header_string = false)
    ∧ (∀ d, m.description = some d → pyIsAscii d = false →
        m.to_header_bytes = none)
    ∧ (pyIsAscii m.name = false → m.to_header_bytes = none) := by
  have hiff : ∀ s, encodeAscii s = none ↔ pyIsAscii s = false := by
    intro s
    by_cases h : pyIsAscii s <;> simp [encodeAscii, h]
  refine ⟨hiff _, ?_, ?_⟩
  · intro d hd hna
    rw [ServerTimingMetric.to_header_bytes, hiff]
    simp only [pyIsAscii] at hna
    cases hdur : m.duration <;>
      simp [ServerTimingMetric.to_header_string, hd, hdur, pyIsAscii,
        List.all_append, hna]
  · intro hna
    rw [ServerTimingMetric.to_header_bytes, hiff]
    simp only [pyIsAscii] at hna
    cases hdur : m.duration <;> cases hdesc : m.description <;>
      simp [ServerTimingMetric.to_header_string, hdur, hdesc, pyIsAscii,
        List.all_append, hna]

/-- C10 witness: a metric whose description contains U+00E9 fails to encode. -/
theorem c10_ascii_encoding_witness :
    ServerTimingMetric.to_header_bytes ⟨chars "a", some (chars "é"), none⟩
      = none :=
  (c10_ascii_encoding ⟨chars "a", some (chars "é"), none⟩).2.1
    (chars "é") rfl (by decide)

/-- C9. For every request, a configured metric whose tag-and-group-filtered
profiler stats are empty contributes nothing to the output (its name appears
on no emitted metric, so neither a bare name nor a `dur=0` entry is written),
and a metric with non-empty filtered stats is emitted with duration equal to
the sum of the `ttot` values times 1000. -/
theorem c9_empty_stats_omitted (tracked : List (ServerTimingMetric × List ℚ))
    (k : ServerTimingMetric) (stats : List ℚ)
    (hmem : (k, stats) ∈ tracked)
    (hnames : (tracked.map (fun e => e.1.name)).Nodup) :
    (stats = [] → ∀ m ∈ performancesOf tracked, m.name ≠ k.name)
    ∧ (stats ≠ [] →
        (⟨k.name, k.description, some (stats.sum * 1000)⟩ : ServerTimingMetric)
          ∈ performancesOf tracked) := by
  constructor
  · intro h0 m hm hname
    rw [performancesOf, List.mem_filterMap] at hm
    obtain ⟨a, ha, hfa⟩ := hm
    by_cases hemp : a.2.isEmpty
    · simp [hemp] at hfa
    · rw [if_neg hemp, Option.some.injEq] at hfa
      have hname2 : a.1.name = k.name := by
        rw [← hfa] at hname
        exact hname
      have haek : a = (k, stats) :=
        List.inj_on_of_nodup_map hnames ha hmem hname2
      rw [haek, h0] at hemp
      exact hemp rfl
  · intro hne
    rw [performancesOf, List.mem_filterMap]
    refine ⟨(k, stats), hmem, ?_⟩
    have hemp : stats.isEmpty = false := by
      cases stats with
      | nil => exact absurd rfl hne
      | cons a b => rfl
    simp [hemp, ratMulNat_eq, ratSum_eq]

/-- C9 witness: with one metric whose tracked call recorded a 2-second sample
and one whose group matched nothing, the latter is absent from the output and
the former reports 2000 ms. -/
theorem c9_empty_stats_omitted_witness :
    (∀ m ∈ performancesOf
        [(⟨chars "used", none, none⟩, [(2 : ℚ)]),
          (⟨chars "nocall", none, none⟩, [])],
      m.name ≠ chars "nocall")
    ∧ (⟨chars "used", none, some (List.sum [(2 : ℚ)] * 1000)⟩ : ServerTimingMetric)
      ∈ performancesOf
        [(⟨chars "used", none, none⟩, [(2 : ℚ)]),
          (⟨chars "nocall", none, none⟩, [])] :=
  ⟨(c9_empty_stats_omitted _ ⟨chars "nocall", none, none⟩ [] (by decide)
      (by decide)).1 rfl,
    (c9_empty_stats_omitted _ ⟨chars "used", none, none⟩ [(2 : ℚ)] (by decide)
      (by decide)).2 (by decide)⟩

/-- A dur-only entry formats as `name;dur=value`. -/
theorem formatMetric_dur (nm v : List Char) :
    formatMetric nm [(chars "dur", PVal.str v)] = nm ++ chars ";dur=" ++ v := by
  simp [formatMetric, PVal.render]

/-- Splitting a `name;dur=value` segment on `;`. -/
theorem split_semi_seg (nm v : List Char) (hnm : ';' ∉ nm) (hv : ';' ∉ v) :
    splitOnChar ';' (nm ++ chars ";dur=" ++ v) = [nm, chars "dur=" ++ v] := by
  have h1 : nm ++ chars ";dur=" ++ v = nm ++ ';' :: (chars "dur=" ++ v) := by
    rw [List.append_assoc]
    rfl
  have hno : ';' ∉ chars "dur=" ++ v := by
    intro hmem
    rcases List.mem_append.mp hmem with h | h
    · exact absurd h (by decide)
    · exact hv h
  rw [h1, splitOnChar_append_cons ';' nm _ hnm, splitOnChar_no_sep ';' _ hno]

/-- Splitting a `dur=value` parameter segment on `=`. -/
theorem split_eq_param (v : List Char) (hv : '=' ∉ v) :
    splitOnChar '=' (chars "dur=" ++ v) = [chars "dur", v] := by
  have h1 : chars "dur=" ++ v = chars "dur" ++ '=' :: v := rfl
  rw [h1, splitOnChar_append_cons '=' (chars "dur") v (by decide),
    splitOnChar_no_sep '=' v hv]

/-- Parsing the serialized segments of a dur-only map appends its entries, in
order, to the accumulator. -/
theorem parse_dur_segments (M : HeaderFieldMap)
    (hgood : ∀ e ∈ M, (';' ∉ e.1 ∧ ',' ∉ e.1) ∧
        ∃ v, e.2 = [(chars "dur", PVal.str v)] ∧ ';' ∉ v ∧ ',' ∉ v ∧ '=' ∉ v)
    (hnames : (M.map Prod.fst).Nodup) :
    ∀ acc : HeaderFieldMap, (∀ e ∈ M, dictGet acc e.1 = none) →
    parseMetrics acc (M.map (fun e => formatMetric e.1 e.2)) = some (acc ++ M) := by
  induction M with
  | nil =>
    intro acc _
    simp [parseMetrics]
  | cons e rest ih =>
    intro acc hacc
    obtain ⟨⟨hs, hc⟩, v, hev, hvs, hvc, hve⟩ := hgood e (List.mem_cons_self _ _)
    have hfm : formatMetric e.1 e.2 = e.1 ++ chars ";dur=" ++ v := by
      rw [hev, formatMetric_dur]
    have hsplit : splitOnChar ';' (formatMetric e.1 e.2)
        = [e.1, chars "dur=" ++ v] := by
      rw [hfm]
      exact split_semi_seg e.1 v hs hvs
    have hins : mapInsertParam acc e.1 (chars "dur") (PVal.str v)
        = acc ++ [(e.1, e.2)] := by
      rw [mapInsertParam, hacc e (List.mem_cons_self _ _), hev]
    rw [List.map_cons]
    simp only [parseMetrics, hsplit, parseParams, split_eq_param v hve, hins]
    have hacc2 : ∀ e2 ∈ rest, dictGet (acc ++ [(e.1, e.2)]) e2.1 = none := by
      intro e2 he2
      have h1 : dictGet acc e2.1 = none := hacc e2 (List.mem_cons_of_mem _ he2)
      rw [dictGet_append_of_none acc _ _ h1, dictGet]
      have hne : e2.1 ≠ e.1 := by
        intro heq
        rw [List.map_cons] at hnames
        have hnm : e.1 ∉ rest.map Prod.fst := (List.nodup_cons.mp hnames).1
        exact hnm (heq ▸ List.mem_map_of_mem Prod.fst he2)
      simp [hne, dictGet]
    rw [ih (fun e2 he2 => (hgood e2 (List.mem_cons_of_mem _ he2)))
        ((List.nodup_cons.mp (List.map_cons Prod.fst e rest ▸ hnames)).2)
        (acc ++ [(e.1, e.2)]) hacc2]
    rw [List.append_assoc]
    rfl

/-- C7 counterexample. The claim says `parse(serialize(M))` reproduces `M` for
every description-free map, including one with an empty parameter set. A
metric with an empty parameter set serializes to its bare name, and the parser
never touches the `defaultdict` for a bare name, so the entry vanishes. -/
theorem c7_counterexample :
    to_header_field_string [(chars "a", [])] = chars "a"
    ∧ server_timing_metrics_to_dict (to_header_field_string [(chars "a", [])])
      = some []
    ∧ some ([] : HeaderFieldMap) ≠ some [(chars "a", [])] := by decide

/-- C7 amended. Parse after serialize is the identity on every
`HeaderFieldMap` with pairwise-distinct names whose entries each carry exactly
one parameter, named `dur`, with a string value, names and values free of the
`,`/`;`/`=` delimiters (as every parse-produced entry is). Entries with an
empty parameter set are dropped by the round trip, and parameters with keys
other than `dur`/`desc` are dropped by the serializer. -/
theorem c7_roundtrip_amended (M : HeaderFieldMap)
    (hnames : (M.map Prod.fst).Nodup)
    (hgood : ∀ e ∈ M, (';' ∉ e.1 ∧ ',' ∉ e.1) ∧
        ∃ v, e.2 = [(chars "dur", PVal.str v)] ∧ ';' ∉ v ∧ ',' ∉ v ∧ '=' ∉ v) :
    server_timing_metrics_to_dict (to_header_field_string M) = some M := by
  cases hM : M with
  | nil => decide
  | cons e rest =>
    rw [server_timing_metrics_to_dict, to_header_field_string]
    have hcomma : ∀ x ∈ M.map (fun e2 => formatMetric e2.1 e2.2), ',' ∉ x := by
      intro x hx
      rw [List.mem_map] at hx
      obtain ⟨e2, he2, rfl⟩ := hx
      obtain ⟨⟨hs2, hc2⟩, v, hev, hvs, hvc, hve⟩ := hgood e2 he2
      rw [hev, formatMetric_dur]
      intro hmem
      rcases List.mem_append.mp hmem with h | h
      · rcases List.mem_append.mp h with h2 | h2
        · exact hc2 h2
        · exact absurd h2 (by decide)
      · exact hvc h
    rw [← hM, splitOnChar_joinWith ',' _ (by rw [hM]; simp) hcomma,
      parse_dur_segments M hgood hnames [] (fun e2 _ => rfl)]
    rfl

/-- C7 witness: a two-entry dur-only map round-trips through
serialize-then-parse unchanged. -/
theorem c7_roundtrip_amended_witness :
    server_timing_metrics_to_dict (to_header_field_string
        [(chars "a", [(chars "dur", PVal.str (chars "10.0"))]),
          (chars "b", [(chars "dur", PVal.str (chars "5"))])])
      = some [(chars "a", [(chars "dur", PVal.str (chars "10.0"))]),
          (chars "b", [(chars "dur", PVal.str (chars "5"))])] :=
  c7_roundtrip_amended _ (by decide) (by
    intro e he
    rw [List.mem_cons, List.mem_cons] at he
    rcases he with rfl | rfl | he
    · exact ⟨by decide, chars "10.0", rfl, by decide, by decide, by decide⟩
    · exact ⟨by decide, chars "5", rfl, by decide, by decide, by decide⟩
    · exact absurd he (List.not_mem_nil e))

/-- The interleaved run only ever appends to the shared profiler store: its
final store is the initial store followed by the interleaving's emissions. -/
theorem runSched_samples (sched : List Bool) :
    ∀ (p : List Sample) (tA tB : ReqTask),
    (runSched sched (p, tA, tB)).1 = p ++ emitted sched tA tB := by
  induction sched with
  | nil =>
    intro p tA tB
    simp [runSched, emitted]
  | cons b bs ih =>
    intro p tA tB
    cases b <;> simp [runSched, emitted, ih, List.append_assoc]

/-- A finished task emits nothing however long it is scheduled. -/
theorem soloEmit_nilScript (n : Nat) (t : ReqTask) (h : t.script = []) :
    soloEmit n t = [] := by
  induction n with
  | zero => rfl
  | succ n ih => simp [soloEmit, emitTask, stepTask, h, ih]

/-- Key isolation lemma: if the second task's emissions never match the
filter, the filtered view of any interleaving equals the filtered view of the
first task running alone for as many steps as it was scheduled. -/
theorem emitted_statsFor (tag : Int) (grp : Nat → Bool) (sched : List Bool) :
    ∀ (tA tB : ReqTask),
    (∀ n, statsFor tag grp (soloEmit n tB) = []) →
    statsFor tag grp (emitted sched tA tB)
      = statsFor tag grp (soloEmit (sched.count true) tA) := by
  induction sched with
  | nil =>
    intro tA tB _
    rfl
  | cons b bs ih =>
    intro tA tB hB
    cases b with
    | true =>
      rw [show emitted (true :: bs) tA tB
          = emitTask tA ++ emitted bs (stepTask tA) tB from rfl]
      rw [statsFor_append, ih (stepTask tA) tB hB]
      rw [show (true :: bs).count true = bs.count true + 1 by simp]
      rw [show soloEmit (bs.count true + 1) tA
          = emitTask tA ++ soloEmit (bs.count true) (stepTask tA) from rfl]
      rw [statsFor_append]
    | false =>
      rw [show emitted (false :: bs) tA tB
          = emitTask tB ++ emitted bs tA (stepTask tB) from rfl]
      rw [statsFor_append]
      have h1 : statsFor tag grp (emitTask tB) = [] := by
        have h := hB 1
        rw [show soloEmit 1 tB = emitTask tB ++ soloEmit 0 (stepTask tB) from rfl,
          statsFor_append] at h
        simpa [soloEmit, statsFor] using h
      have hB2 : ∀ n, statsFor tag grp (soloEmit n (stepTask tB)) = [] := by
        intro n
        have h := hB (n + 1)
        rw [show soloEmit (n + 1) tB
            = emitTask tB ++ soloEmit n (stepTask tB) from rfl,
          statsFor_append, List.append_eq_nil] at h
        exact h.2
      rw [h1, ih tA (stepTask tB) hB2]
      rw [show (false :: bs).count true = bs.count true by simp]
      rw [List.nil_append]

/-- The script of one simulated request: set the context tag to the scope id
at entry, then execute one tracked downstream call. -/
def requestScript (i : Int) (c : Nat) (d : ℚ) : ReqTask :=
  ⟨-1, [TaskAction.setTag i, TaskAction.call c d]⟩

/-- A fully scheduled request emits exactly one sample, carrying its own tag. -/
theorem soloEmit_requestScript (i : Int) (c : Nat) (d : ℚ) (n : Nat)
    (hn : 2 ≤ n) : soloEmit n (requestScript i c d) = [(i, c, d)] := by
  obtain ⟨k, rfl⟩ : ∃ k, n = k + 2 := ⟨n - 2, by omega⟩
  show emitTask (requestScript i c d)
      ++ (emitTask ⟨i, [TaskAction.call c d]⟩ ++ soloEmit k ⟨i, []⟩) = _
  rw [soloEmit_nilScript k ⟨i, []⟩ rfl]
  simp [emitTask, requestScript]

/-- A request's emissions never match a filter for a different tag. -/
theorem statsFor_requestScript_other (tag : Int) (grp : Nat → Bool)
    (i : Int) (c : Nat) (d : ℚ) (hne : i ≠ tag) :
    ∀ n, statsFor tag grp (soloEmit n (requestScript i c d)) = [] := by
  intro n
  match n with
  | 0 => rfl
  | 1 => rfl
  | (k + 2) =>
    rw [soloEmit_requestScript i c d (k + 2) (by omega)]
    simp [statsFor, hne]

/-- Tasks are interchangeable by negating the schedule. -/
theorem emitted_swap (sched : List Bool) : ∀ tA tB,
    emitted sched tA tB = emitted (sched.map (fun b => !b)) tB tA := by
  induction sched with
  | nil =>
    intro _ _
    rfl
  | cons b bs ih =>
    intro tA tB
    cases b <;> simp [emitted, ih]

theorem count_true_map_not (sched : List Bool) :
    (sched.map (fun b => !b)).count true = sched.count false := by
  induction sched with
  | nil => rfl
  | cons b bs ih => cases b <;> simp [ih, List.count_cons]

/-- C1. The request tag each task's downstream calls are recorded under is
always the task's own `ContextVar` value, never a concurrently in-flight
sibling's: for every interleaving of two requests (distinct scope ids, each
invoking its own distinct tracked call), each request's computed
`server-timing` header reports exactly its own metric with exactly its own
duration — never the other request's duration, and never the sum of both. -/
theorem c1_request_tag_isolation (idA idB : Int) (cA cB : Nat) (dA dB : ℚ)
    (sched : List Bool) (hid : idA ≠ idB) (hc : cA ≠ cB)
    (hnA : 2 ≤ sched.count true) (hnB : 2 ≤ sched.count false) :
    requestHeaderValue
        [(⟨chars "ma", none, none⟩, fun c => c == cA),
          (⟨chars "mb", none, none⟩, fun c => c == cB)] idA
        (runSched sched
          ([], requestScript idA cA dA, requestScript idB cB dB)).1
      = chars "ma" ++ chars ";dur=" ++ fmt3 (dA * 1000)
    ∧ requestHeaderValue
        [(⟨chars "ma", none, none⟩, fun c => c == cA),
          (⟨chars "mb", none, none⟩, fun c => c == cB)] idB
        (runSched sched
          ([], requestScript idA cA dA, requestScript idB cB dB)).1
      = chars "mb" ++ chars ";dur=" ++ fmt3 (dB * 1000) := by
  rw [runSched_samples, List.nil_append]
  have hA_self : statsFor idA (fun c => c == cA)
      (emitted sched (requestScript idA cA dA) (requestScript idB cB dB))
      = [dA] := by
    rw [emitted_statsFor _ _ _ _ _
        (statsFor_requestScript_other idA _ idB cB dB (Ne.symm hid)),
      soloEmit_requestScript idA cA dA _ hnA]
    simp [statsFor]
  have hA_other : statsFor idA (fun c => c == cB)
      (emitted sched (requestScript idA cA dA) (requestScript idB cB dB))
      = [] := by
    rw [emitted_statsFor _ _ _ _ _
        (statsFor_requestScript_other idA _ idB cB dB (Ne.symm hid)),
      soloEmit_requestScript idA cA dA _ hnA]
    simp [statsFor, hc]
  have hB_self : statsFor idB (fun c => c == cB)
      (emitted sched (requestScript idA cA dA) (requestScript idB cB dB))
      = [dB] := by
    rw [emitted_swap, emitted_statsFor _ _ _ _ _
        (statsFor_requestScript_other idB _ idA cA dA hid),
      count_true_map_not, soloEmit_requestScript idB cB dB _ hnB]
    simp [statsFor]
  have hB_other : statsFor idB (fun c => c == cA)
      (emitted sched (requestScript idA cA dA) (requestScript idB cB dB))
      = [] := by
    rw [emitted_swap, emitted_statsFor _ _ _ _ _
        (statsFor_requestScript_other idB _ idA cA dA hid),
      count_true_map_not, soloEmit_requestScript idB cB dB _ hnB]
    simp [statsFor, Ne.symm hc]
  have hsumA : ratMulNat (ratSum [dA]) 1000 = dA * 1000 := by
    rw [ratSum_eq, ratMulNat_eq]
    norm_num
  have hsumB : ratMulNat (ratSum [dB]) 1000 = dB * 1000 := by
    rw [ratSum_eq, ratMulNat_eq]
    norm_num
  constructor
  · rw [requestHeaderValue]
    simp only [List.map_cons, List.map_nil]
    rw [hA_self, hA_other]
    simp [performancesOf, freshHeaderValue, joinWith,
      ServerTimingMetric.to_header_string, hsumA]
  · rw [requestHeaderValue]
    simp only [List.map_cons, List.map_nil]
    rw [hB_self, hB_other]
    simp [performancesOf, freshHeaderValue, joinWith,
      ServerTimingMetric.to_header_string, hsumB]

/-- C1 witness: scope ids 1 and 2, calls 0 and 1 with 0.1 s and 0.3 s, run
under the interleaving \[A, A, B, B]; request 1 reports 100.000 ms for its own
metric only and request 2 reports 300.000 ms for its own metric only. -/
theorem c1_request_tag_isolation_witness :
    requestHeaderValue
        [(⟨chars "ma", none, none⟩, fun c => c == 0),
          (⟨chars "mb", none, none⟩, fun c => c == 1)] 1
        (runSched [true, true, false, false]
          ([], requestScript 1 0 (mkRat 1 10), requestScript 2 1 (mkRat 3 10))).1
      = chars "ma;dur=100.000"
    ∧ requestHeaderValue
        [(⟨chars "ma", none, none⟩, fun c => c == 0),
          (⟨chars "mb", none, none⟩, fun c => c == 1)] 2
        (runSched [true, true, false, false]
          ([], requestScript 1 0 (mkRat 1 10), requestScript 2 1 (mkRat 3 10))).1
      = chars "mb;dur=300.000" := by
  obtain ⟨h1, h2⟩ := c1_request_tag_isolation 1 2 0 1 (mkRat 1 10) (mkRat 3 10)
    [true, true, false, false] (by decide) (by decide) (by decide) (by decide)
  constructor
  · rw [h1, show (mkRat 1 10 * 1000 : ℚ) = 100 by
      rw [Rat.mkRat_eq_div]
      norm_num]
    decide
  · rw [h2, show (mkRat 3 10 * 1000 : ℚ) = 300 by
      rw [Rat.mkRat_eq_div]
      norm_num]
    decide
